import Mathlib

/-!
Verification of the BasicLisp interpreter core (include/lisp.h) against its
natural-language specification. The repository ships only the public header;
the behavioural components (evaluator, reader, printer, symbol table, error
channel) are modelled from the specification, faithful to the header's data
declarations (enum type, struct lisp_object, struct symbol, struct
lisp_builtin, struct lisp_function, enum paramspec, MAX_ERROR).
-/

set_option maxHeartbeats 1000000

/-! ## Object model

`struct lisp_object { void *data; prev; next; enum type obj_type; C_BOOL quoted; }`
with `enum type { INTEGER, STRING, SYMBOL, LIST, FUNCTION, BUILTIN, T_TYPE }`.
The sibling chain (prev/next) realizes list structure; we model a chain as a
Lean `List`. The `quoted` flag is carried by every object. A builtin
(`struct lisp_builtin`) is a native function pointer plus paramspec and
params; the function pointer is modelled as a numeric id resolved through an
implementation environment. A function (`struct lisp_function`) is a list of
parameter symbol names plus a list of body forms. -/

/-- `enum paramspec` arity modes: VAR_FIXED, VAR_MIN, VAR_MAX. -/
inductive ArityMode where
  | fixed : ArityMode
  | min : ArityMode
  | max : ArityMode
deriving DecidableEq

/-- A paramspec: one arity mode, optionally combined with the UNEVAL_ARGS
modifier (do not evaluate the arguments of this function). -/
structure ParamSpec where
  mode : ArityMode
  unevalArgs : Bool
deriving DecidableEq

mutual

inductive LispData : Type where
  | integer : Int → LispData
  | str : String → LispData
  | symbol : String → LispData
  | list : List LispObj → LispData
  | function : List String → List LispObj → LispData
  | builtin : ParamSpec → Nat → Nat → LispData
  | tVal : LispData

inductive LispObj : Type where
  | obj : LispData → Bool → LispObj

end

/-- The error kinds of the error-handling design: ReadError, UnboundSymbol,
ConstantViolation, ArityError (naming expected vs. actual), NotCallable,
TypeMismatch, ResourceExhausted. -/
inductive EvalErr where
  | ReadError : String → EvalErr
  | UnboundSymbol : String → EvalErr
  | ConstantViolation : String → EvalErr
  | ArityError : ParamSpec → Nat → Nat → EvalErr
  | NotCallable : EvalErr
  | TypeMismatch : EvalErr
  | ResourceExhausted : EvalErr
deriving DecidableEq

/-- The data component of an object. -/
def LispObj.dataOf : LispObj → LispData
  | .obj d _ => d

/-- The quoted flag of an object. -/
def LispObj.quotedOf : LispObj → Bool
  | .obj _ q => q

/-- `extern struct lisp_object *nil` — the nil singleton, a LIST object with
an empty chain (the enum has no separate NIL tag). -/
def nil : LispObj := .obj (.list []) false

/-- `extern struct lisp_object *t` — the T singleton. -/
def t : LispObj := .obj .tVal false

/-- Modelled from the spec: `true_p` / `is_true(v)` — every Value is true
except the `Nil` singleton and the empty list (the implementation in lisp.c
is absent from the repository). -/
def true_p : LispObj → Bool
  | .obj (.list []) _ => false
  | _ => true

mutual

/-- Modelled from the spec: `lisp_object_deep_copy` produces a structurally
identical Value (the implementation in lisp.c is absent from the
repository). -/
def lisp_object_deep_copy : LispObj → LispObj
  | .obj d q => .obj (deep_copy_data d) q

def deep_copy_data : LispData → LispData
  | .integer n => .integer n
  | .str s => .str s
  | .symbol s => .symbol s
  | .list es => .list (deep_copy_list es)
  | .function ps fs => .function ps (deep_copy_list fs)
  | .builtin sp k i => .builtin sp k i
  | .tVal => .tVal

def deep_copy_list : List LispObj → List LispObj
  | [] => []
  | e :: r => lisp_object_deep_copy e :: deep_copy_list r

end

/-! ## Symbol table

`struct symbol { char *symbol_name; struct lisp_object *value; C_BOOL constant; }`
stored in a global growable table, unique by name. -/

/-- A symbol table entry: bound value plus constant flag. -/
structure SymEntry where
  value : LispObj
  constant : Bool

/-- The symbol table: name-to-entry mapping, unique by name. -/
abbrev SymTable := List (String × SymEntry)

/-- Modelled from the spec: `symbol_lookup(key)` returns the entry bound to
`key`, or nothing if absent (the implementation in lisp.c is absent from the
repository). -/
def symbol_lookup (key : String) : SymTable → Option SymEntry
  | [] => none
  | (y, e) :: r => if y = key then some e else symbol_lookup key r

/-- Install or overwrite the entry for `key`. -/
def setEntry (key : String) (e : SymEntry) : SymTable → SymTable
  | [] => [(key, e)]
  | (y, d) :: r => if y = key then (key, e) :: r else (y, d) :: setEntry key e r

/-- Remove every entry for `key`. -/
def removeEntry (key : String) : SymTable → SymTable
  | [] => []
  | (y, d) :: r => if y = key then removeEntry key r else (y, d) :: removeEntry key r

/-- Put the entry for `key` back to a previously observed state: either a
saved entry, or absent. -/
def restoreEntry (key : String) : Option SymEntry → SymTable → SymTable
  | some e, tbl => setEntry key e tbl
  | none, tbl => removeEntry key tbl

/-- Restore a list of saved (name, prior-entry) pairs. -/
def restoreSaved : List (String × Option SymEntry) → SymTable → SymTable
  | [], tbl => tbl
  | (x, p) :: rest, tbl => restoreEntry x p (restoreSaved rest tbl)

/-- Install parameter bindings (non-constant) into the table, left to
right. -/
def bindParams : List String → List LispObj → SymTable → SymTable
  | [], _, tbl => tbl
  | _ :: _, [], tbl => tbl
  | x :: xs, v :: vs, tbl => bindParams xs vs (setEntry x ⟨v, false⟩ tbl)

/-- Modelled from the spec: `assign(name, value)` fails with `UnboundSymbol`
if absent and with `ConstantViolation` if the entry is constant, leaving the
table unchanged; otherwise it updates the binding (the implementation in
lisp.c is absent from the repository). -/
def lisp_assign (key : String) (v : LispObj) (tbl : SymTable) :
    Except EvalErr Unit × SymTable :=
  match symbol_lookup key tbl with
  | none => (.error (.UnboundSymbol key), tbl)
  | some e =>
    if e.constant then (.error (.ConstantViolation key), tbl)
    else (.ok (), setEntry key ⟨v, false⟩ tbl)

/-- Modelled from the spec: `define_builtin_function` installs a Builtin
Value under `name` in the symbol table, marked constant (the implementation
in lisp.c is absent from the repository). -/
def define_builtin_function (name : String) (spec : ParamSpec) (numparams : Nat)
    (impl : Nat) (tbl : SymTable) : SymTable :=
  setEntry name ⟨.obj (.builtin spec numparams impl) false, true⟩ tbl

/-! ## Evaluator

`c_eval` dispatch by tag, modelled from the spec: quoted Values are returned
unevaluated (after deep copy); Integer, String, T, Function, Builtin
self-evaluate; Symbol resolves through the symbol table (UnboundSymbol if
absent); an empty List evaluates to Nil; a non-empty List evaluates its head,
which must resolve to a Function or Builtin (else NotCallable), and applies
it: arity check against the callee's paramspec first, then (unless
UNEVAL_ARGS) left-to-right argument evaluation with immediate error
propagation, then invocation. Interpreted functions bind parameters into the
global table and restore the prior bindings on every exit, error included.
Native builtins are resolved from their id through an implementation
environment `B`; recursion depth is bounded by fuel (exhaustion surfaces as
ResourceExhausted). -/

/-- The interpreter state threaded through evaluation: the global symbol
table plus an observation log that test builtins may append to. -/
structure InterpState where
  table : SymTable
  log : List String

/-- Result of one evaluation step: a value or an error, plus the state. -/
abbrev EvalRes := Except EvalErr LispObj × InterpState

/-- An implementation environment resolving builtin function ids to native
behaviour. -/
abbrev BuiltinImpl := Nat → List LispObj → InterpState → EvalRes

/-- Arity check of the application protocol: Fixed(k) requires n = k,
Min(k) requires n >= k, Max(k) requires n <= k. -/
def arity_ok : ArityMode → Nat → Nat → Bool
  | .fixed, k, n => decide (n = k)
  | .min, k, n => decide (k ≤ n)
  | .max, k, n => decide (n ≤ k)

mutual

/-- Modelled from the spec: `c_eval` (the implementation in lisp.c is absent
from the repository). -/
def c_eval (B : BuiltinImpl) : Nat → InterpState → LispObj → EvalRes
  | 0, st, _ => (.error .ResourceExhausted, st)
  | fuel + 1, st, v =>
    match v with
    | .obj d true => (.ok (lisp_object_deep_copy (.obj d true)), st)
    | .obj d false =>
      match d with
      | .integer n => (.ok (.obj (.integer n) false), st)
      | .str s => (.ok (.obj (.str s) false), st)
      | .tVal => (.ok (.obj .tVal false), st)
      | .function ps fs => (.ok (.obj (.function ps fs) false), st)
      | .builtin sp k i => (.ok (.obj (.builtin sp k i) false), st)
      | .symbol name =>
        match symbol_lookup name st.table with
        | none => (.error (.UnboundSymbol name), st)
        | some e => (.ok e.value, st)
      | .list [] => (.ok nil, st)
      | .list (h :: args) =>
        match c_eval B fuel st h with
        | (.error e, st') => (.error e, st')
        | (.ok hv, st') =>
          match hv with
          | .obj (.builtin spec k impl) _ => applyBuiltin B fuel spec k impl args st'
          | .obj (.function params forms) _ => applyFunction B fuel params forms args st'
          | _ => (.error .NotCallable, st')

/-- Evaluate raw arguments left-to-right; evaluation of a later argument
never proceeds if an earlier one errors. -/
def evalArgs (B : BuiltinImpl) :
    Nat → InterpState → List LispObj → Except EvalErr (List LispObj) × InterpState
  | 0, st, _ => (.error .ResourceExhausted, st)
  | _ + 1, st, [] => (.ok [], st)
  | fuel + 1, st, a :: rest =>
    match c_eval B fuel st a with
    | (.error e, st') => (.error e, st')
    | (.ok v, st') =>
      match evalArgs B fuel st' rest with
      | (.error e, st'') => (.error e, st'')
      | (.ok vs, st'') => (.ok (v :: vs), st'')

/-- Apply a builtin: arity check first (ArityError naming the paramspec,
expected and actual counts); then the raw arguments are passed through if
the callee declares UNEVAL_ARGS, otherwise they are evaluated left-to-right
before the native function is invoked. -/
def applyBuiltin (B : BuiltinImpl) :
    Nat → ParamSpec → Nat → Nat → List LispObj → InterpState → EvalRes
  | 0, _, _, _, _, st => (.error .ResourceExhausted, st)
  | fuel + 1, spec, k, impl, args, st =>
    if arity_ok spec.mode k args.length then
      if spec.unevalArgs then B impl args st
      else
        match evalArgs B fuel st args with
        | (.error e, st') => (.error e, st')
        | (.ok vs, st') => B impl vs st'
    else (.error (.ArityError spec k args.length), st)

/-- Apply an interpreted function: arity is fixed at the declared parameter
count; arguments are evaluated, then parameters are bound and the body is
run through `funCallCore`. -/
def applyFunction (B : BuiltinImpl) :
    Nat → List String → List LispObj → List LispObj → InterpState → EvalRes
  | 0, _, _, _, st => (.error .ResourceExhausted, st)
  | fuel + 1, params, forms, args, st =>
    if args.length = params.length then
      match evalArgs B fuel st args with
      | (.error e, st') => (.error e, st')
      | (.ok vs, st') => funCallCore B fuel params forms vs st'
    else (.error (.ArityError ⟨.fixed, false⟩ params.length args.length), st)

/-- Bind each parameter symbol to the corresponding evaluated argument in
the global symbol table, evaluate the body forms in sequence, and restore
the shadowed bindings on exit — including on error exit. -/
def funCallCore (B : BuiltinImpl) :
    Nat → List String → List LispObj → List LispObj → InterpState → EvalRes
  | 0, _, _, _, st => (.error .ResourceExhausted, st)
  | fuel + 1, params, forms, vs, st =>
    let saved := params.map (fun x => (x, symbol_lookup x st.table))
    let bodyRes := evalBody B fuel ⟨bindParams params vs st.table, st.log⟩ forms
    (bodyRes.1, ⟨restoreSaved saved bodyRes.2.table, bodyRes.2.log⟩)

/-- Evaluate body forms in sequence, discarding all but the last result; an
error aborts the sequence immediately. An empty body yields Nil. -/
def evalBody (B : BuiltinImpl) : Nat → InterpState → List LispObj → EvalRes
  | 0, st, _ => (.error .ResourceExhausted, st)
  | _ + 1, st, [] => (.ok nil, st)
  | fuel + 1, st, [f] => c_eval B fuel st f
  | fuel + 1, st, f :: rest =>
    match c_eval B fuel st f with
    | (.error e, st') => (.error e, st')
    | (.ok _, st') => evalBody B fuel st' rest

end

/-- Modelled from the spec: the conditional control-flow builtin is
implemented through UNEVAL_ARGS and uses `true_p` as its boolean test (the
implementation in lisp.c is absent from the repository). -/
def builtin_if (B : BuiltinImpl) (fuel : Nat) (args : List LispObj)
    (st : InterpState) : EvalRes :=
  match args with
  | [c, a, b] =>
    match c_eval B fuel st c with
    | (.error e, st') => (.error e, st')
    | (.ok cv, st') =>
      if true_p cv then c_eval B fuel st' a else c_eval B fuel st' b
  | _ => (.error (.ArityError ⟨.fixed, true⟩ 3 args.length), st)

/-! ## Error channel

`set_error` / `get_error` / `has_error` with `MAX_ERROR` from the header;
the channel holds at most one message, overwritten by each `set_error` and
cleared only explicitly. -/

/-- `#define MAX_ERROR 1000` — the fixed maximum error-message length. -/
def MAX_ERROR : Nat := 1000

/-- The process-wide error channel: an error flag plus the message buffer. -/
structure ErrChan where
  flag : Bool
  buf : Option String

/-- The initial error channel: no error has occurred. -/
def err_init : ErrChan := ⟨false, none⟩

/-- Modelled from the spec: `set_error` sets the error and the error flag; a
message exceeding the fixed maximum length is truncated rather than rejected
(the implementation in lisp.c is absent from the repository). -/
def set_error (_ : ErrChan) (msg : String) : ErrChan :=
  ⟨true, some (String.mk (msg.data.take MAX_ERROR))⟩

/-- Clearing the channel (performed by the driver between top-level
evaluations). -/
def clear_error (_ : ErrChan) : ErrChan := ⟨false, none⟩

/-- Modelled from the spec: `get_error` returns the current error or NULL if
no error has occurred (the implementation in lisp.c is absent from the
repository). -/
def get_error (c : ErrChan) : Option String :=
  if c.flag then c.buf else none

/-- Modelled from the spec: `has_error` returns C_TRUE if an error has
occurred (the implementation in lisp.c is absent from the repository). -/
def has_error (c : ErrChan) : Bool := c.flag

/-- The error channels reachable through the channel's public surface:
the initial state, `set_error`, and clearing. -/
inductive ErrReach : ErrChan → Prop where
  | init : ErrReach err_init
  | set : ∀ c m, ErrReach c → ErrReach (set_error c m)
  | clear : ∀ c, ErrReach c → ErrReach (clear_error c)

/-! ## Reader and printer

Modelled from the spec: `c_read` parses one top-level form from a character
sequence (integers: optional sign + digits; strings: double-quoted with
escaped quote and backslash, no raw newlines; symbols: contiguous
non-delimiter characters not matching the integer grammar; lists:
parenthesized whitespace-separated forms, `()` reading as the empty list;
a leading quote marker sets the Value's quoted flag). `c_print` renders the
inverse grammar. The implementations in lisp.c are absent from the
repository. Character classes are decided on code points. -/

/-- Whitespace: space, tab, line feed, carriage return. -/
def isWsC (c : Char) : Bool :=
  c.toNat = 32 || c.toNat = 9 || c.toNat = 10 || c.toNat = 13

/-- Reader delimiters: whitespace, parentheses, the string quote and the
quote marker. -/
def isDelimC (c : Char) : Bool :=
  isWsC c || c.toNat = 40 || c.toNat = 41 || c.toNat = 34 || c.toNat = 39

/-- Decimal digits. -/
def isDigitC (c : Char) : Bool :=
  48 ≤ c.toNat && c.toNat ≤ 57

/-- The quote marker character. -/
def quoteC : Char := Char.ofNat 39

/-- The string delimiter character. -/
def dquoteC : Char := Char.ofNat 34

/-- The escape character. -/
def bslashC : Char := Char.ofNat 92

/-- The list delimiters and the token separator. -/
def lparenC : Char := Char.ofNat 40

def rparenC : Char := Char.ofNat 41

def spaceC : Char := Char.ofNat 32

def minusC : Char := Char.ofNat 45

def plusC : Char := Char.ofNat 43

/-- One decimal digit as a character. -/
def digitChar : Nat → Char
  | 0 => '0' | 1 => '1' | 2 => '2' | 3 => '3' | 4 => '4'
  | 5 => '5' | 6 => '6' | 7 => '7' | 8 => '8' | _ => '9'

/-- Render a natural number in decimal. -/
def ppNat (m : Nat) : List Char :=
  if _h : m < 10 then [digitChar m]
  else ppNat (m / 10) ++ [digitChar (m % 10)]
decreasing_by exact Nat.div_lt_self (by omega) (by omega)

/-- Render an integer in decimal, with a leading minus sign when negative. -/
def ppInt (n : Int) : List Char :=
  if n < 0 then minusC :: ppNat n.natAbs else ppNat n.toNat

/-- Numeric value of a decimal digit character. -/
def dval (c : Char) : Nat := c.toNat - 48

/-- Parse a digit run as a natural number. -/
def parseNatTok (tok : List Char) : Nat :=
  tok.foldl (fun a c => 10 * a + dval c) 0

/-- Does a token match the integer grammar (optional sign + digits)? -/
def isIntTok : List Char → Bool
  | [] => false
  | c :: rest =>
    if c.toNat = 45 ∨ c.toNat = 43 then !rest.isEmpty && rest.all isDigitC
    else isDigitC c && rest.all isDigitC

/-- Parse a token matching the integer grammar. -/
def parseIntTok : List Char → Int
  | [] => 0
  | c :: rest =>
    if c.toNat = 45 then -(parseNatTok rest : Int)
    else if c.toNat = 43 then (parseNatTok rest : Int)
    else (parseNatTok (c :: rest) : Int)

/-- Drop leading whitespace. -/
def skipWs (s : List Char) : List Char := s.dropWhile isWsC

mutual

/-- Parse the body of a string literal after the opening quote, up to and
consuming the closing quote; escaped quote and backslash are recognised, a
raw newline or an invalid escape is a read error. -/
def parseStrBody : List Char → Option (List Char × List Char)
  | [] => none
  | c :: r =>
    if c.toNat = 34 then some ([], r)
    else if c.toNat = 92 then parseStrEsc r
    else if c.toNat = 10 then none
    else
      match parseStrBody r with
      | some (b, rest) => some (c :: b, rest)
      | none => none

/-- The continuation after a backslash: only an escaped quote or backslash
is a valid escape. -/
def parseStrEsc : List Char → Option (List Char × List Char)
  | [] => none
  | e :: r' =>
    if e.toNat = 34 ∨ e.toNat = 92 then
      match parseStrBody r' with
      | some (b, rest) => some (e :: b, rest)
      | none => none
    else none

end

/-- Escape a string body for printing: quote and backslash get a leading
backslash. -/
def escapeStr : List Char → List Char
  | [] => []
  | c :: r =>
    if c.toNat = 34 ∨ c.toNat = 92 then bslashC :: c :: escapeStr r
    else c :: escapeStr r

mutual

/-- Fuel-bounded recursive-descent parse of one form: skip whitespace, then
dispatch on the first character. -/
def parseF : Nat → List Char → Option (LispObj × List Char)
  | 0, _ => none
  | fuel + 1, s => parseForm fuel (skipWs s)

/-- Dispatch on the first character of a whitespace-stripped input: quote
marker, list opener, string opener, or a token classified as integer or
symbol; a stray closing parenthesis or end of input is a read error. -/
def parseForm : Nat → List Char → Option (LispObj × List Char)
  | _, [] => none
  | 0, _ :: _ => none
  | fuel + 1, c :: r =>
    if c.toNat = 39 then
      match parseF fuel r with
      | some (.obj d _, rest) => some (.obj d true, rest)
      | none => none
    else if c.toNat = 40 then
      match parseItemsF fuel r with
      | some (es, rest) => some (.obj (.list es) false, rest)
      | none => none
    else if c.toNat = 41 then none
    else if c.toNat = 34 then
      match parseStrBody r with
      | some (b, rest) => some (.obj (.str (String.mk b)) false, rest)
      | none => none
    else
      let tok := (c :: r).takeWhile (fun d => !isDelimC d)
      let rest := (c :: r).dropWhile (fun d => !isDelimC d)
      if tok.isEmpty then none
      else if isIntTok tok then some (.obj (.integer (parseIntTok tok)) false, rest)
      else some (.obj (.symbol (String.mk tok)) false, rest)

/-- Fuel-bounded parse of list elements up to and consuming the closing
parenthesis. -/
def parseItemsF : Nat → List Char → Option (List LispObj × List Char)
  | 0, _ => none
  | fuel + 1, s => parseItems1 fuel (skipWs s)

/-- List-element dispatch on a whitespace-stripped input: a closing
parenthesis ends the list, anything else is one form followed by the
remaining elements. -/
def parseItems1 : Nat → List Char → Option (List LispObj × List Char)
  | _, [] => none
  | 0, _ :: _ => none
  | fuel + 1, c :: r =>
    if c.toNat = 41 then some ([], r)
    else
      match parseF fuel (c :: r) with
      | some (v, rest) =>
        match parseItemsF fuel rest with
        | some (es, rest') => some (v :: es, rest')
        | none => none
      | none => none

end

/-- Modelled from the spec: `c_read` parses one top-level form (the
implementation in lisp.c is absent from the repository). The fuel is derived
from the input length, which bounds the descent depth. -/
def c_read (s : List Char) : Option (LispObj × List Char) :=
  parseF (4 * s.length + 2) s

mutual

/-- Modelled from the spec: `c_print` rendering of a Value — integers as
decimal, strings re-quoted with escapes restored, symbols verbatim, lists
parenthesized and space-separated, T as its literal, functions and builtins
as opaque markers, and the quoted flag as a leading quote marker (the
implementation in lisp.c is absent from the repository). -/
def printObj : LispObj → List Char
  | .obj d true => quoteC :: printData d
  | .obj d false => printData d

def printData : LispData → List Char
  | .integer n => ppInt n
  | .str s => dquoteC :: (escapeStr s.data ++ [dquoteC])
  | .symbol s => s.data
  | .list es => lparenC :: (printItems es ++ [rparenC])
  | .function _ _ => '#' :: '<' :: 'f' :: 'u' :: 'n' :: 'c' :: 't' :: 'i' :: 'o' :: 'n' :: ['>']
  | .builtin _ _ _ => '#' :: '<' :: 'b' :: 'u' :: 'i' :: 'l' :: 't' :: 'i' :: 'n' :: ['>']
  | .tVal => ['t']

def printItems : List LispObj → List Char
  | [] => []
  | e :: r => printObj e ++ printItemsTail r

def printItemsTail : List LispObj → List Char
  | [] => []
  | e :: r => spaceC :: (printObj e ++ printItemsTail r)

end

/-- The rendering of a Value as produced by `c_print`. -/
def c_print (v : LispObj) : List Char := printObj v

mutual

/-- Well-formed literal Values: integers, strings without raw newlines,
symbols made of non-delimiter characters not matching the integer grammar,
and lists of such, all with the quoted flag unset. -/
def wfObj : LispObj → Bool
  | .obj d false => wfData d
  | .obj _ true => false

def wfData : LispData → Bool
  | .integer _ => true
  | .str s => s.data.all (fun c => !(c.toNat = 10 : Bool))
  | .symbol s => !s.data.isEmpty && s.data.all (fun c => !isDelimC c) && !isIntTok s.data
  | .list es => wfItems es
  | .function _ _ => false
  | .builtin _ _ _ => false
  | .tVal => false

def wfItems : List LispObj → Bool
  | [] => true
  | e :: r => wfObj e && wfItems r

end

mutual

/-- Fuel sufficient for `parseF` to parse the rendering of a Value. -/
def needData : LispData → Nat
  | .list es => needList es + 2
  | _ => 2

/-- Fuel sufficient for `parseItemsF` to parse the rendering of list
elements. -/
def needList : List LispObj → Nat
  | [] => 2
  | .obj d _ :: r => needData d + needList r + 2

end

/-- Does a character sequence start at a form boundary (empty, or a
delimiter first)? -/
def delimBoundary : List Char → Bool
  | [] => true
  | c :: _ => isDelimC c

/-! ## Concrete test fixtures used by the witnesses. -/

/-- The empty interpreter state. -/
def st0 : InterpState := ⟨[], []⟩

/-- A state with the global symbol `x` bound to `Integer(1)`. -/
def stx : InterpState := ⟨[("x", ⟨.obj (.integer 1) false, false⟩)], []⟩

/-- A trivial builtin implementation environment: every builtin returns
Nil. -/
def Bnull : BuiltinImpl := fun _ _ st => (.ok nil, st)

/-- A side-effecting test implementation environment: every builtin records
its invocation in the log and returns Nil. -/
def Brec : BuiltinImpl := fun _ _ st => (.ok nil, ⟨st.table, st.log ++ ["invoked"]⟩)

/-- An unevaluated symbol form naming `a` (unbound in `st0`). -/
def formA : LispObj := .obj (.symbol "a") false

/-- A call form invoking builtin id 7 with no arguments; evaluating it
invokes the native function. -/
def formCallB : LispObj := .obj (.list [.obj (.builtin ⟨.fixed, false⟩ 0 7) false]) false

/-! # Theorems -/

/-! ## Symbol table lemmas -/

theorem lookup_setEntry_self (key : String) (e : SymEntry) :
    ∀ tbl : SymTable, symbol_lookup key (setEntry key e tbl) = some e := by
  intro tbl
  induction tbl with
  | nil => simp [setEntry, symbol_lookup]
  | cons p r ih =>
    obtain ⟨y, d⟩ := p
    by_cases h : y = key
    · simp [setEntry, h, symbol_lookup]
    · simp [setEntry, h, symbol_lookup, ih]

theorem lookup_setEntry_other (x key : String) (e : SymEntry) (hx : x ≠ key) :
    ∀ tbl : SymTable, symbol_lookup x (setEntry key e tbl) = symbol_lookup x tbl := by
  intro tbl
  induction tbl with
  | nil => simp [setEntry, symbol_lookup, Ne.symm hx]
  | cons p r ih =>
    obtain ⟨y, d⟩ := p
    by_cases h : y = key
    · subst h
      simp [setEntry, symbol_lookup, Ne.symm hx]
    · simp [setEntry, h, symbol_lookup, ih]

theorem lookup_removeEntry_self (key : String) :
    ∀ tbl : SymTable, symbol_lookup key (removeEntry key tbl) = none := by
  intro tbl
  induction tbl with
  | nil => simp [removeEntry, symbol_lookup]
  | cons p r ih =>
    obtain ⟨y, d⟩ := p
    by_cases h : y = key
    · simp [removeEntry, h, ih]
    · simp [removeEntry, h, symbol_lookup, ih]

theorem lookup_removeEntry_other (x key : String) (hx : x ≠ key) :
    ∀ tbl : SymTable, symbol_lookup x (removeEntry key tbl) = symbol_lookup x tbl := by
  intro tbl
  induction tbl with
  | nil => simp [removeEntry]
  | cons p r ih =>
    obtain ⟨y, d⟩ := p
    by_cases h : y = key
    · subst h
      simp [removeEntry, symbol_lookup, Ne.symm hx, ih]
    · simp [removeEntry, h, symbol_lookup, ih]

theorem lookup_restoreSaved (tbl0 : SymTable) :
    ∀ (params : List String) (tbl : SymTable) (x : String),
      symbol_lookup x
          (restoreSaved (params.map fun y => (y, symbol_lookup y tbl0)) tbl)
        = if x ∈ params then symbol_lookup x tbl0 else symbol_lookup x tbl := by
  intro params
  induction params with
  | nil => intro tbl x; simp [restoreSaved]
  | cons y ys ih =>
    intro tbl x
    simp only [List.map_cons, restoreSaved]
    by_cases hxy : x = y
    · subst hxy
      cases hp : symbol_lookup x tbl0 with
      | none =>
        simp [restoreEntry, hp, lookup_removeEntry_self, List.mem_cons]
      | some e =>
        simp [restoreEntry, hp, lookup_setEntry_self, List.mem_cons]
    · cases hp : symbol_lookup y tbl0 with
      | none =>
        simp only [restoreEntry]
        rw [lookup_removeEntry_other x y hxy]
        rw [ih tbl x]
        simp [List.mem_cons, hxy]
      | some e =>
        simp only [restoreEntry]
        rw [lookup_setEntry_other x y e hxy]
        rw [ih tbl x]
        simp [List.mem_cons, hxy]

/-! ## Deep copy is the structural identity -/

mutual

theorem deep_copy_obj_eq : ∀ v : LispObj, lisp_object_deep_copy v = v
  | .obj d q => by simp [lisp_object_deep_copy, deep_copy_data_eq d]

theorem deep_copy_data_eq : ∀ d : LispData, deep_copy_data d = d
  | .integer _ => rfl
  | .str _ => rfl
  | .symbol _ => rfl
  | .list es => by simp [deep_copy_data, deep_copy_list_eq es]
  | .function ps fs => by simp [deep_copy_data, deep_copy_list_eq fs]
  | .builtin _ _ _ => rfl
  | .tVal => rfl

theorem deep_copy_list_eq : ∀ l : List LispObj, deep_copy_list l = l
  | [] => rfl
  | e :: r => by simp [deep_copy_list, deep_copy_obj_eq e, deep_copy_list_eq r]

end

/-! ## Claims about the application protocol and the evaluator -/

/-- Claim C1: for every callable (builtin or interpreted function) with
declared paramspec and numparams k, applying it to n raw arguments yields an
ArityError — with the interpreter state untouched, so before the callee or
any argument evaluation runs — whenever the spec is violated: Fixed(k)
requires n = k, Min(k) requires n ≥ k, Max(k) requires n ≤ k; interpreted
functions have fixed arity at their declared parameter count. The error
names the spec plus the expected and actual counts. -/
theorem spec_c1_arity_enforcement :
    (∀ k n : Nat, arity_ok .fixed k n = true ↔ n = k) ∧
    (∀ k n : Nat, arity_ok .min k n = true ↔ k ≤ n) ∧
    (∀ k n : Nat, arity_ok .max k n = true ↔ n ≤ k) ∧
    (∀ (B : BuiltinImpl) (fuel : Nat) (spec : ParamSpec) (k impl : Nat)
        (args : List LispObj) (st : InterpState),
      arity_ok spec.mode k args.length = false →
        applyBuiltin B (fuel + 1) spec k impl args st
          = (.error (.ArityError spec k args.length), st)) ∧
    (∀ (B : BuiltinImpl) (fuel : Nat) (params : List String)
        (forms args : List LispObj) (st : InterpState),
      args.length ≠ params.length →
        applyFunction B (fuel + 1) params forms args st
          = (.error (.ArityError ⟨.fixed, false⟩ params.length args.length), st)) := by
  refine ⟨?_, ?_, ?_, ?_, ?_⟩
  · intro k n; simp [arity_ok]
  · intro k n; simp [arity_ok]
  · intro k n; simp [arity_ok]
  · intro B fuel spec k impl args st h
    simp [applyBuiltin, h]
  · intro B fuel params forms args st h
    simp [applyFunction, h]

/-- Witness for C1: a Fixed(2) builtin invoked with 1 and with 3 raw
arguments errors with the state (including the invocation log of the
side-effecting environment `Brec`) untouched. -/
theorem spec_c1_arity_enforcement_witness :
    applyBuiltin Brec 1 ⟨.fixed, false⟩ 2 7 [t] st0
        = (.error (.ArityError ⟨.fixed, false⟩ 2 1), st0) ∧
    applyBuiltin Brec 1 ⟨.fixed, false⟩ 2 7 [t, t, t] st0
        = (.error (.ArityError ⟨.fixed, false⟩ 2 3), st0) :=
  ⟨spec_c1_arity_enforcement.2.2.2.1 Brec 0 ⟨.fixed, false⟩ 2 7 [t] st0 (by decide),
   spec_c1_arity_enforcement.2.2.2.1 Brec 0 ⟨.fixed, false⟩ 2 7 [t, t, t] st0 (by decide)⟩

/-- Claim C2: for every callable that does not declare UNEVAL_ARGS, the
arguments are evaluated strictly left to right before invocation, and an
error while evaluating an earlier argument propagates immediately, leaving
every later argument unevaluated (the result and state are exactly those of
the failing evaluation, for every builtin implementation environment). -/
theorem spec_c2_arg_eval_order :
    (∀ (B : BuiltinImpl) (fuel : Nat) (st : InterpState) (a : LispObj)
        (rest : List LispObj) (e : EvalErr) (st' : InterpState),
      c_eval B fuel st a = (.error e, st') →
        evalArgs B (fuel + 1) st (a :: rest) = (.error e, st')) ∧
    (∀ (B : BuiltinImpl) (fuel : Nat) (st : InterpState) (a : LispObj)
        (rest : List LispObj) (v : LispObj) (st' : InterpState),
      c_eval B fuel st a = (.ok v, st') →
        evalArgs B (fuel + 1) st (a :: rest)
          = (match evalArgs B fuel st' rest with
             | (.error e2, st'') => (.error e2, st'')
             | (.ok vs, st'') => (.ok (v :: vs), st''))) ∧
    (∀ (B : BuiltinImpl) (fuel : Nat) (spec : ParamSpec) (k impl : Nat)
        (args : List LispObj) (st : InterpState),
      spec.unevalArgs = false → arity_ok spec.mode k args.length = true →
        applyBuiltin B (fuel + 1) spec k impl args st
          = (match evalArgs B fuel st args with
             | (.error e, st') => (.error e, st')
             | (.ok vs, st') => B impl vs st')) := by
  refine ⟨?_, ?_, ?_⟩
  · intro B fuel st a rest e st' h
    simp [evalArgs, h]
  · intro B fuel st a rest v st' h
    simp [evalArgs, h]
  · intro B fuel spec k impl args st h1 h2
    simp [applyBuiltin, h1, h2]

/-- Witness for C2: with arguments [A, B] where evaluating A signals
UnboundSymbol, the whole argument evaluation signals that error with state
still `st0` — in particular the side-effecting builtin reached through B
never records an invocation in the log. -/
theorem spec_c2_arg_eval_order_witness :
    evalArgs Brec 3 st0 [formA, formCallB] = (.error (.UnboundSymbol "a"), st0) ∧
    (evalArgs Brec 3 st0 [formA, formCallB]).2.log = [] := by
  have h : c_eval Brec 2 st0 formA = (.error (.UnboundSymbol "a"), st0) := rfl
  have hm := spec_c2_arg_eval_order.1 Brec 2 st0 formA [formCallB]
    (.UnboundSymbol "a") st0 h
  exact ⟨hm, by rw [hm]; rfl⟩

/-- Claim C3: for every application of an interpreted function, the
parameter symbols shadowed in the global symbol table are restored to their
prior values when the application exits — the result (including an error
from body evaluation) is passed through unchanged — and the binding
mechanism itself changes no entry other than the shadowed parameters. -/
theorem spec_c3_binding_restoration :
    ∀ (B : BuiltinImpl) (fuel : Nat) (params : List String)
      (forms vs : List LispObj) (st : InterpState),
      (∀ x, x ∈ params →
        symbol_lookup x (funCallCore B (fuel + 1) params forms vs st).2.table
          = symbol_lookup x st.table) ∧
      (∀ x, x ∉ params →
        symbol_lookup x (funCallCore B (fuel + 1) params forms vs st).2.table
          = symbol_lookup x
              (evalBody B fuel ⟨bindParams params vs st.table, st.log⟩ forms).2.table) ∧
      (funCallCore B (fuel + 1) params forms vs st).1
        = (evalBody B fuel ⟨bindParams params vs st.table, st.log⟩ forms).1 := by
  intro B fuel params forms vs st
  refine ⟨?_, ?_, rfl⟩
  · intro x hx
    show symbol_lookup x
        (restoreSaved (params.map fun y => (y, symbol_lookup y st.table))
          (evalBody B fuel ⟨bindParams params vs st.table, st.log⟩ forms).2.table)
      = symbol_lookup x st.table
    rw [lookup_restoreSaved st.table params _ x]
    simp [hx]
  · intro x hx
    show symbol_lookup x
        (restoreSaved (params.map fun y => (y, symbol_lookup y st.table))
          (evalBody B fuel ⟨bindParams params vs st.table, st.log⟩ forms).2.table)
      = symbol_lookup x
          (evalBody B fuel ⟨bindParams params vs st.table, st.log⟩ forms).2.table
    rw [lookup_restoreSaved st.table params _ x]
    simp [hx]

/-- Witness for C3: with global `x = 1`, calling a function with parameter
`x` (bound to 2 for the call) and body returning `x` leaves the global `x`
bound to 1 afterward. -/
theorem spec_c3_binding_restoration_witness :
    symbol_lookup "x" (funCallCore Bnull 1 ["x"] [.obj (.symbol "x") false]
        [.obj (.integer 2) false] stx).2.table
      = symbol_lookup "x" stx.table :=
  (spec_c3_binding_restoration Bnull 0 ["x"] [.obj (.symbol "x") false]
      [.obj (.integer 2) false] stx).1 "x" (by simp)

/-- Claim C4: `true_p` returns false exactly for the Nil singleton and the
empty list (which the object model identifies: nil is the empty-chain LIST
object) and true for every other Value, in particular for `Integer(0)`; the
conditional builtin branches exactly by `true_p`. -/
theorem spec_c4_truthiness :
    (∀ (d : LispData) (q : Bool), true_p (.obj d q) = false ↔ d = .list []) ∧
    true_p nil = false ∧
    true_p (.obj (.integer 0) false) = true ∧
    nil.dataOf = .list [] ∧
    (∀ (B : BuiltinImpl) (fuel : Nat) (st st' : InterpState) (c a b cv : LispObj),
      c_eval B fuel st c = (.ok cv, st') →
        builtin_if B fuel [c, a, b] st
          = (if true_p cv then c_eval B fuel st' a else c_eval B fuel st' b)) := by
  refine ⟨?_, rfl, rfl, rfl, ?_⟩
  · intro d q
    constructor
    · intro h
      cases d with
      | integer n => exact Bool.noConfusion h
      | str s => exact Bool.noConfusion h
      | symbol s => exact Bool.noConfusion h
      | function ps fs => exact Bool.noConfusion h
      | builtin sp k i => exact Bool.noConfusion h
      | tVal => exact Bool.noConfusion h
      | list es =>
        cases es with
        | nil => rfl
        | cons e r => exact Bool.noConfusion h
    · intro h
      subst h
      rfl
  · intro B fuel st st' c a b cv h
    simp [builtin_if, h]

/-- Witness for C4: zero is truthy, and the conditional builtin selects the
branch that `true_p` dictates on a concrete evaluated condition. -/
theorem spec_c4_truthiness_witness :
    true_p (.obj (.integer 0) false) = true ∧
    ((true_p (.obj (.integer 0) false) = false) ↔ (.integer 0 : LispData) = .list []) ∧
    builtin_if Bnull 1 [t, t, nil] st0
      = (if true_p t then c_eval Bnull 1 st0 t else c_eval Bnull 1 st0 nil) :=
  ⟨spec_c4_truthiness.2.2.1,
   spec_c4_truthiness.1 (.integer 0) false,
   spec_c4_truthiness.2.2.2.2 Bnull 1 st0 st0 t t nil t rfl⟩

/-- Claim C5: an assign to a name whose symbol table entry is constant —
in particular any name installed by `define_builtin_function`, which is
marked constant — fails with ConstantViolation, and the failed attempt
leaves the table (hence the entry's bound Value) unchanged. -/
theorem spec_c5_constant_violation :
    (∀ (tbl : SymTable) (key : String) (e : SymEntry) (v : LispObj),
      symbol_lookup key tbl = some e → e.constant = true →
        lisp_assign key v tbl = (.error (.ConstantViolation key), tbl)) ∧
    (∀ (tbl : SymTable) (name : String) (spec : ParamSpec) (k impl : Nat)
        (v : LispObj),
      symbol_lookup name (define_builtin_function name spec k impl tbl)
          = some ⟨.obj (.builtin spec k impl) false, true⟩ ∧
      lisp_assign name v (define_builtin_function name spec k impl tbl)
          = (.error (.ConstantViolation name),
             define_builtin_function name spec k impl tbl)) := by
  constructor
  · intro tbl key e v h1 h2
    simp [lisp_assign, h1, h2]
  · intro tbl name spec k impl v
    have hl : symbol_lookup name (define_builtin_function name spec k impl tbl)
        = some ⟨.obj (.builtin spec k impl) false, true⟩ := by
      simp [define_builtin_function, lookup_setEntry_self]
    exact ⟨hl, by simp [lisp_assign, hl]⟩

/-- Witness for C5: assigning to the registered builtin name `car` fails
with ConstantViolation and the table is returned unchanged. -/
theorem spec_c5_constant_violation_witness :
    lisp_assign "car" t [("car", ⟨t, true⟩)]
        = (.error (.ConstantViolation "car"), [("car", ⟨t, true⟩)]) ∧
    lisp_assign "car" nil (define_builtin_function "car" ⟨.fixed, false⟩ 1 3 [])
        = (.error (.ConstantViolation "car"),
           define_builtin_function "car" ⟨.fixed, false⟩ 1 3 []) :=
  ⟨spec_c5_constant_violation.1 [("car", ⟨t, true⟩)] "car" ⟨t, true⟩ t rfl rfl,
   (spec_c5_constant_violation.2 [] "car" ⟨.fixed, false⟩ 1 3 nil).2⟩

/-- Claim C7: evaluating a Value whose quoted flag is set returns the Value
unevaluated — a deep copy, which is structurally identical to it — instead
of applying the normal evaluation rules for its tag. -/
theorem spec_c7_quoted_eval :
    ∀ (B : BuiltinImpl) (fuel : Nat) (st : InterpState) (v : LispObj),
      v.quotedOf = true →
        c_eval B (fuel + 1) st v = (.ok (lisp_object_deep_copy v), st) ∧
        lisp_object_deep_copy v = v := by
  intro B fuel st v hq
  obtain ⟨d, q⟩ := v
  cases q with
  | false => exact Bool.noConfusion hq
  | true => exact ⟨rfl, deep_copy_obj_eq _⟩

/-- Witness for C7: a quoted symbol evaluates to itself (and is not looked
up, although it is unbound in `st0`). -/
theorem spec_c7_quoted_eval_witness :
    c_eval Bnull 1 st0 (.obj (.symbol "y") true)
        = (.ok (lisp_object_deep_copy (.obj (.symbol "y") true)), st0) ∧
    lisp_object_deep_copy (.obj (.symbol "y") true) = .obj (.symbol "y") true :=
  spec_c7_quoted_eval Bnull 0 st0 (.obj (.symbol "y") true) rfl

/-- Claim C8: evaluating a Symbol resolves it through the symbol table:
UnboundSymbol naming the symbol if absent, otherwise the bound Value; and
evaluating `(foo)` with `foo` unbound yields UnboundSymbol naming `foo`
(the head of the list errors before application). -/
theorem spec_c8_unbound_symbol :
    (∀ (B : BuiltinImpl) (fuel : Nat) (st : InterpState) (name : String),
      symbol_lookup name st.table = none →
        c_eval B (fuel + 1) st (.obj (.symbol name) false)
          = (.error (.UnboundSymbol name), st)) ∧
    (∀ (B : BuiltinImpl) (fuel : Nat) (st : InterpState) (name : String)
        (e : SymEntry),
      symbol_lookup name st.table = some e →
        c_eval B (fuel + 1) st (.obj (.symbol name) false) = (.ok e.value, st)) ∧
    (∀ (B : BuiltinImpl) (fuel : Nat) (st : InterpState) (name : String),
      symbol_lookup name st.table = none →
        c_eval B (fuel + 1 + 1) st (.obj (.list [.obj (.symbol name) false]) false)
          = (.error (.UnboundSymbol name), st)) := by
  refine ⟨?_, ?_, ?_⟩
  · intro B fuel st name h
    simp [c_eval, h]
  · intro B fuel st name e h
    simp [c_eval, h]
  · intro B fuel st name h
    simp [c_eval, h]

/-- Witness for C8: `(foo)` with `foo` unbound yields UnboundSymbol naming
`foo`, and a bound symbol evaluates to its bound value. -/
theorem spec_c8_unbound_symbol_witness :
    c_eval Bnull 2 st0 (.obj (.list [.obj (.symbol "foo") false]) false)
        = (.error (.UnboundSymbol "foo"), st0) ∧
    c_eval Bnull 1 stx (.obj (.symbol "x") false)
        = (.ok (.obj (.integer 1) false), stx) :=
  ⟨spec_c8_unbound_symbol.2.2 Bnull 0 st0 "foo" rfl,
   spec_c8_unbound_symbol.2.1 Bnull 0 stx "x" ⟨.obj (.integer 1) false, false⟩ rfl⟩

/-! ## Claims about the error channel -/

/-- Claim C9: every `set_error` call succeeds and the stored message length
is bounded by MAX_ERROR: an overlong message is truncated to fit rather than
rejected, and `get_error` then returns the (possibly truncated) message; a
message within the bound is stored unchanged. -/
theorem spec_c9_error_truncation :
    ∀ (c : ErrChan) (m : String),
      has_error (set_error c m) = true ∧
      get_error (set_error c m) = some (String.mk (m.data.take MAX_ERROR)) ∧
      (String.mk (m.data.take MAX_ERROR)).length ≤ MAX_ERROR ∧
      (m.length ≤ MAX_ERROR → get_error (set_error c m) = some m) := by
  intro c m
  refine ⟨rfl, rfl, ?_, ?_⟩
  · show (m.data.take MAX_ERROR).length ≤ MAX_ERROR
    rw [List.length_take]
    exact Nat.min_le_left _ _
  · intro h
    have ht : m.data.take MAX_ERROR = m.data := List.take_of_length_le h
    show some (String.mk (m.data.take MAX_ERROR)) = some m
    rw [ht]

/-- Witness for C9: a short message is stored verbatim and flagged; an
overlong message is truncated to exactly MAX_ERROR characters. -/
theorem spec_c9_error_truncation_witness :
    get_error (set_error err_init "boom") = some "boom" ∧
    has_error (set_error err_init "boom") = true ∧
    (String.mk (("boom").data.take MAX_ERROR)).length ≤ MAX_ERROR :=
  ⟨(spec_c9_error_truncation err_init "boom").2.2.2 (by decide),
   (spec_c9_error_truncation err_init "boom").1,
   (spec_c9_error_truncation err_init "boom").2.2.1⟩

/-- Claim C10: on every channel state reachable through the error channel's
public surface, `has_error` returns true exactly when `get_error` returns a
message; after any `set_error` the flag is set, and initially or after
clearing `get_error` returns nothing. -/
theorem spec_c10_error_channel_consistency :
    ∀ c : ErrChan, ErrReach c →
      ((has_error c = true) ↔ get_error c ≠ none) ∧
      (∀ m, has_error (set_error c m) = true) ∧
      get_error err_init = none ∧
      get_error (clear_error c) = none ∧
      has_error (clear_error c) = false := by
  intro c h
  refine ⟨?_, fun m => rfl, rfl, rfl, rfl⟩
  induction h with
  | init => simp [has_error, get_error, err_init]
  | set c' m ih => simp [has_error, get_error, set_error]
  | clear c' ih => simp [has_error, get_error, clear_error]

/-- Witness for C10: the consistency equivalence at the initial channel and
after a concrete `set_error`. -/
theorem spec_c10_error_channel_consistency_witness :
    ((has_error err_init = true) ↔ get_error err_init ≠ none) ∧
    ((has_error (set_error err_init "e") = true)
      ↔ get_error (set_error err_init "e") ≠ none) :=
  ⟨(spec_c10_error_channel_consistency err_init .init).1,
   (spec_c10_error_channel_consistency (set_error err_init "e")
      (.set err_init "e" .init)).1⟩

/-! ## Reader/printer roundtrip: character and token lemmas -/

theorem delim_false (c : Char) (h : isDelimC c = false) :
    isWsC c = false ∧ ¬c.toNat = 40 ∧ ¬c.toNat = 41 ∧ ¬c.toNat = 34 ∧
      ¬c.toNat = 39 := by
  simp [isDelimC] at h
  exact ⟨h.1.1.1.1, h.1.1.1.2, h.1.1.2, h.1.2, h.2⟩

theorem skipWs_cons_not_ws (c : Char) (r : List Char) (h : isWsC c = false) :
    skipWs (c :: r) = c :: r := by
  simp [skipWs, List.dropWhile_cons, h]

theorem skipWs_cons_ws (c : Char) (r : List Char) (h : isWsC c = true) :
    skipWs (c :: r) = skipWs r := by
  simp [skipWs, List.dropWhile_cons, h]

theorem token_split (rest : List Char) (hb : delimBoundary rest = true) :
    ∀ tok : List Char, (∀ c ∈ tok, isDelimC c = false) →
      (tok ++ rest).takeWhile (fun c => !isDelimC c) = tok ∧
      (tok ++ rest).dropWhile (fun c => !isDelimC c) = rest := by
  intro tok
  induction tok with
  | nil =>
    intro _
    cases rest with
    | nil => simp
    | cons c rr =>
      simp only [delimBoundary] at hb
      simp [List.takeWhile_cons, List.dropWhile_cons, hb]
  | cons c tr ih =>
    intro h
    have hc : isDelimC c = false := h c (by simp)
    have htr := ih (fun x hx => h x (by simp [hx]))
    simp [List.takeWhile_cons, List.dropWhile_cons, hc, htr.1, htr.2]

/-! ## Decimal rendering lemmas -/

theorem digitChar_toNat (d : Nat) (h : d < 10) : (digitChar d).toNat = 48 + d := by
  interval_cases d <;> rfl

theorem isDigitC_digitChar (d : Nat) (h : d < 10) : isDigitC (digitChar d) = true := by
  interval_cases d <;> decide

theorem dval_digitChar (d : Nat) (h : d < 10) : dval (digitChar d) = d := by
  interval_cases d <;> decide

theorem isDigitC_bounds (c : Char) (h : isDigitC c = true) :
    48 ≤ c.toNat ∧ c.toNat ≤ 57 := by
  simpa [isDigitC] using h

theorem isDigitC_not_delim (c : Char) (h : isDigitC c = true) : isDelimC c = false := by
  obtain ⟨h1, h2⟩ := isDigitC_bounds c h
  simp [isDelimC, isWsC]
  omega

theorem ppNat_ne_nil (m : Nat) : ppNat m ≠ [] := by
  induction m using Nat.strong_induction_on with
  | _ m ih =>
    rw [ppNat]
    by_cases h : m < 10
    · simp [h]
    · simp [h]

theorem ppNat_digits (m : Nat) : ∀ c ∈ ppNat m, isDigitC c = true := by
  induction m using Nat.strong_induction_on with
  | _ m ih =>
    rw [ppNat]
    by_cases h : m < 10
    · simp only [h, dif_pos]
      intro c hc
      simp at hc
      subst hc
      exact isDigitC_digitChar m h
    · simp only [h, dif_neg, not_false_iff]
      intro c hc
      rw [List.mem_append] at hc
      rcases hc with hc | hc
      · exact ih (m / 10) (Nat.div_lt_self (by omega) (by omega)) c hc
      · simp at hc
        subst hc
        exact isDigitC_digitChar (m % 10) (Nat.mod_lt m (by omega))

theorem parseNatTok_append_digit (xs : List Char) (c : Char) :
    parseNatTok (xs ++ [c]) = 10 * parseNatTok xs + dval c := by
  simp [parseNatTok, List.foldl_append]

theorem parseNat_ppNat (m : Nat) : parseNatTok (ppNat m) = m := by
  induction m using Nat.strong_induction_on with
  | _ m ih =>
    rw [ppNat]
    by_cases h : m < 10
    · simp only [h, dif_pos]
      show parseNatTok [digitChar m] = m
      simp [parseNatTok, dval_digitChar m h]
    · simp only [h, dif_neg, not_false_iff]
      rw [parseNatTok_append_digit]
      rw [ih (m / 10) (Nat.div_lt_self (by omega) (by omega))]
      rw [dval_digitChar (m % 10) (Nat.mod_lt m (by omega))]
      omega

theorem ppNat_head (m : Nat) :
    ∃ c cs, ppNat m = c :: cs ∧ isDigitC c = true ∧ ∀ x ∈ cs, isDigitC x = true := by
  cases hp : ppNat m with
  | nil => exact absurd hp (ppNat_ne_nil m)
  | cons c cs =>
    refine ⟨c, cs, rfl, ?_, ?_⟩
    · exact ppNat_digits m c (by rw [hp]; simp)
    · intro x hx
      exact ppNat_digits m x (by rw [hp]; simp [hx])

theorem ppInt_head (n : Int) :
    ∃ c cs, ppInt n = c :: cs ∧ isDelimC c = false ∧ ∀ x ∈ cs, isDelimC x = false := by
  rw [ppInt]
  by_cases h : n < 0
  · rw [if_pos h]
    refine ⟨minusC, ppNat n.natAbs, rfl, by decide, ?_⟩
    intro x hx
    exact isDigitC_not_delim x (ppNat_digits _ x hx)
  · rw [if_neg h]
    obtain ⟨c, cs, hp, hc, hcs⟩ := ppNat_head n.toNat
    refine ⟨c, cs, hp, isDigitC_not_delim c hc, ?_⟩
    intro x hx
    exact isDigitC_not_delim x (hcs x hx)

theorem ppInt_not_delim (n : Int) : ∀ c ∈ ppInt n, isDelimC c = false := by
  obtain ⟨c, cs, hp, hc, hcs⟩ := ppInt_head n
  rw [hp]
  intro x hx
  rcases List.mem_cons.mp hx with hx | hx
  · subst hx; exact hc
  · exact hcs x hx


theorem isIntTok_ppInt (n : Int) : isIntTok (ppInt n) = true := by
  rw [ppInt]
  by_cases h : n < 0
  · rw [if_pos h]
    obtain ⟨c, cs, hp, hc, hcs⟩ := ppNat_head n.natAbs
    rw [hp]
    simp only [isIntTok]
    rw [if_pos (by left; decide)]
    refine (Bool.and_eq_true _ _).mpr ⟨rfl, ?_⟩
    rw [List.all_eq_true]
    intro x hx
    rcases List.mem_cons.mp hx with hx | hx
    · subst hx; exact hc
    · exact hcs x hx
  · rw [if_neg h]
    obtain ⟨c, cs, hp, hc, hcs⟩ := ppNat_head n.toNat
    rw [hp]
    obtain ⟨hb1, hb2⟩ := isDigitC_bounds c hc
    simp only [isIntTok]
    rw [if_neg (by omega)]
    refine (Bool.and_eq_true _ _).mpr ⟨hc, ?_⟩
    rw [List.all_eq_true]
    exact hcs

theorem parseIntTok_ppInt (n : Int) : parseIntTok (ppInt n) = n := by
  rw [ppInt]
  by_cases h : n < 0
  · rw [if_pos h]
    have h2 : parseIntTok (minusC :: ppNat n.natAbs)
        = -(parseNatTok (ppNat n.natAbs) : Int) := by
      simp only [parseIntTok]
      rw [if_pos (by decide)]
    rw [h2, parseNat_ppNat]
    omega
  · rw [if_neg h]
    obtain ⟨c, cs, hp, hc, _⟩ := ppNat_head n.toNat
    obtain ⟨hb1, hb2⟩ := isDigitC_bounds c hc
    rw [hp]
    simp only [parseIntTok]
    rw [if_neg (by omega), if_neg (by omega), ← hp, parseNat_ppNat]
    omega

/-! ## String body roundtrip -/

theorem parse_escape (rest : List Char) :
    ∀ s : List Char, (∀ c ∈ s, ¬c.toNat = 10) →
      parseStrBody (escapeStr s ++ (dquoteC :: rest)) = some (s, rest) := by
  intro s
  induction s with
  | nil =>
    intro _
    show parseStrBody (dquoteC :: rest) = some ([], rest)
    rw [parseStrBody, if_pos (by decide)]
  | cons c cr ih =>
    intro h
    have hc10 : ¬c.toNat = 10 := h c (by simp)
    have hcr := ih (fun x hx => h x (by simp [hx]))
    by_cases hq : c.toNat = 34 ∨ c.toNat = 92
    · rw [escapeStr, if_pos hq]
      show parseStrBody (bslashC :: c :: (escapeStr cr ++ (dquoteC :: rest)))
        = some (c :: cr, rest)
      rw [parseStrBody, if_neg (by decide), if_pos (by decide),
        parseStrEsc, if_pos hq, hcr]
    · rw [escapeStr, if_neg hq]
      push_neg at hq
      obtain ⟨h34, h92⟩ := hq
      show parseStrBody (c :: (escapeStr cr ++ (dquoteC :: rest))) = some (c :: cr, rest)
      rw [parseStrBody, if_neg h34, if_neg h92, if_neg hc10, hcr]

theorem wf_symbol_parts (s : String) (h : wfData (.symbol s) = true) :
    (∃ c cs, s.data = c :: cs) ∧ (∀ c ∈ s.data, isDelimC c = false) ∧
      isIntTok s.data = false := by
  simp only [wfData, Bool.and_eq_true] at h
  obtain ⟨⟨h1, h2⟩, h3⟩ := h
  refine ⟨?_, ?_, ?_⟩
  · cases hd : s.data with
    | nil => rw [hd] at h1; exact Bool.noConfusion h1
    | cons c cs => exact ⟨c, cs, rfl⟩
  · intro c hc
    have := List.all_eq_true.mp h2 c hc
    simpa using this
  · simpa using h3

theorem wf_str_parts (s : String) (h : wfData (.str s) = true) :
    ∀ c ∈ s.data, ¬c.toNat = 10 := by
  simp only [wfData] at h
  intro c hc
  have := List.all_eq_true.mp h c hc
  simpa using this

theorem wfObj_parts (d : LispData) (q : Bool) (h : wfObj (.obj d q) = true) :
    q = false ∧ wfData d = true := by
  cases q with
  | false =>
    refine ⟨rfl, ?_⟩
    simpa only [wfObj] using h
  | true =>
    simp only [wfObj] at h
    exact Bool.noConfusion h

theorem wfItems_parts (e : LispObj) (r : List LispObj)
    (h : wfItems (e :: r) = true) : wfObj e = true ∧ wfItems r = true := by
  simpa only [wfItems, Bool.and_eq_true] using h

theorem printData_head (d : LispData) (h : wfData d = true) :
    ∃ c cs, printData d = c :: cs ∧ isWsC c = false ∧ ¬c.toNat = 41 := by
  cases d with
  | integer n =>
    obtain ⟨c, cs, hp, hc, _⟩ := ppInt_head n
    obtain ⟨hw, _, h41, _, _⟩ := delim_false c hc
    refine ⟨c, cs, ?_, hw, h41⟩
    rw [printData, hp]
  | str s =>
    exact ⟨dquoteC, escapeStr s.data ++ [dquoteC], by rw [printData], by decide, by decide⟩
  | symbol s =>
    obtain ⟨⟨c, cs, hd⟩, hall, _⟩ := wf_symbol_parts s h
    obtain ⟨hw, _, h41, _, _⟩ := delim_false c (hall c (by rw [hd]; simp))
    refine ⟨c, cs, ?_, hw, h41⟩
    rw [printData, hd]
  | list es =>
    exact ⟨lparenC, printItems es ++ [rparenC], by rw [printData], by decide, by decide⟩
  | function ps fs =>
    simp only [wfData] at h
    exact Bool.noConfusion h
  | builtin sp k i =>
    simp only [wfData] at h
    exact Bool.noConfusion h
  | tVal =>
    simp only [wfData] at h
    exact Bool.noConfusion h

theorem boundary_tail (r : List LispObj) (rest : List Char) :
    delimBoundary (printItemsTail r ++ (rparenC :: rest)) = true := by
  cases r with
  | nil =>
    rw [printItemsTail, List.nil_append, delimBoundary]
    decide
  | cons e r' =>
    rw [printItemsTail, List.cons_append, delimBoundary]
    decide

theorem needData_ge (d : LispData) : 2 ≤ needData d := by
  cases d <;> simp [needData]

theorem needList_ge (es : List LispObj) : 2 ≤ needList es := by
  cases es with
  | nil => simp [needList]
  | cons e r =>
    obtain ⟨dd, q⟩ := e
    simp only [needList]
    omega

/-! ## Roundtrip: per-constructor parsing lemmas -/

theorem RT_form_integer (n : Int) :
    ∀ fuel rest, needData (.integer n) ≤ fuel + 1 → delimBoundary rest = true →
      parseForm fuel (printData (.integer n) ++ rest)
        = some (.obj (.integer n) false, rest) := by
  intro fuel rest hneed hb
  obtain ⟨g, rfl⟩ : ∃ g, fuel = g + 1 :=
    ⟨fuel - 1, by simp only [needData] at hneed; omega⟩
  obtain ⟨c, cs, hp, hcdel, _⟩ := ppInt_head n
  have hall : ∀ x ∈ ppInt n, isDelimC x = false := ppInt_not_delim n
  obtain ⟨hw, h40, h41, h34, h39⟩ := delim_false c hcdel
  have hsp := token_split rest hb (ppInt n) hall
  have hne : (ppInt n).isEmpty = false := by rw [hp]; rfl
  rw [printData, hp, List.cons_append, parseForm]
  rw [if_neg h39, if_neg h40, if_neg h41, if_neg h34]
  have hcat : c :: (cs ++ rest) = ppInt n ++ rest := by
    rw [hp, List.cons_append]
  rw [hcat, hsp.1, hsp.2]
  rw [if_neg (by simp [hne]), if_pos (isIntTok_ppInt n), parseIntTok_ppInt]

theorem RT_form_symbol (s : String) (hwf : wfData (.symbol s) = true) :
    ∀ fuel rest, needData (.symbol s) ≤ fuel + 1 → delimBoundary rest = true →
      parseForm fuel (printData (.symbol s) ++ rest)
        = some (.obj (.symbol s) false, rest) := by
  intro fuel rest hneed hb
  obtain ⟨g, rfl⟩ : ∃ g, fuel = g + 1 :=
    ⟨fuel - 1, by simp only [needData] at hneed; omega⟩
  obtain ⟨⟨c, cs, hd⟩, hall, hint⟩ := wf_symbol_parts s hwf
  obtain ⟨hw, h40, h41, h34, h39⟩ := delim_false c (hall c (by rw [hd]; simp))
  have hsp := token_split rest hb s.data hall
  have hne : s.data.isEmpty = false := by rw [hd]; rfl
  rw [printData, hd, List.cons_append, parseForm]
  rw [if_neg h39, if_neg h40, if_neg h41, if_neg h34]
  have hcat : c :: (cs ++ rest) = s.data ++ rest := by
    rw [hd, List.cons_append]
  rw [hcat, hsp.1, hsp.2]
  rw [if_neg (by simp [hne]), if_neg (by simp [hint])]

theorem RT_form_str (s : String) (hwf : wfData (.str s) = true) :
    ∀ fuel rest, needData (.str s) ≤ fuel + 1 → delimBoundary rest = true →
      parseForm fuel (printData (.str s) ++ rest)
        = some (.obj (.str s) false, rest) := by
  intro fuel rest hneed _hb
  obtain ⟨g, rfl⟩ : ∃ g, fuel = g + 1 :=
    ⟨fuel - 1, by simp only [needData] at hneed; omega⟩
  rw [printData, List.cons_append, parseForm]
  rw [if_neg (by decide), if_neg (by decide), if_neg (by decide), if_pos (by decide)]
  have harr : (escapeStr s.data ++ [dquoteC]) ++ rest
      = escapeStr s.data ++ (dquoteC :: rest) := by
    rw [List.append_assoc]; rfl
  rw [harr, parse_escape rest s.data (wf_str_parts s hwf)]

theorem RT_form_list (es : List LispObj)
    (hitems : ∀ fuel rest, needList es ≤ fuel →
        parseItemsF fuel (printItems es ++ (rparenC :: rest)) = some (es, rest)) :
    ∀ fuel rest, needData (.list es) ≤ fuel + 1 → delimBoundary rest = true →
      parseForm fuel (printData (.list es) ++ rest)
        = some (.obj (.list es) false, rest) := by
  intro fuel rest hneed _hb
  obtain ⟨g, rfl⟩ : ∃ g, fuel = g + 1 :=
    ⟨fuel - 1, by simp only [needData] at hneed; omega⟩
  rw [printData, List.cons_append, parseForm]
  rw [if_neg (by decide), if_pos (by decide)]
  have harr : (printItems es ++ [rparenC]) ++ rest
      = printItems es ++ (rparenC :: rest) := by
    rw [List.append_assoc]; rfl
  have hfu : needList es ≤ g := by simp only [needData] at hneed; omega
  rw [harr, hitems g rest hfu]

theorem parseF_lift (d : LispData) (hwf : wfData d = true)
    (hform : ∀ fuel rest, needData d ≤ fuel + 1 → delimBoundary rest = true →
        parseForm fuel (printData d ++ rest) = some (.obj d false, rest)) :
    ∀ fuel rest, needData d ≤ fuel → delimBoundary rest = true →
      parseF fuel (printData d ++ rest) = some (.obj d false, rest) := by
  intro fuel rest hneed hb
  obtain ⟨f, rfl⟩ : ∃ f, fuel = f + 1 :=
    ⟨fuel - 1, by have := needData_ge d; omega⟩
  rw [parseF]
  obtain ⟨c, cs, hp, hws, _⟩ := printData_head d hwf
  rw [hp, List.cons_append, skipWs_cons_not_ws c _ hws, ← List.cons_append, ← hp]
  exact hform f rest (by omega) hb

theorem RT_nil_items (fuel : Nat) (rest : List Char) (hneed : 2 ≤ fuel) :
    parseItemsF fuel (rparenC :: rest) = some ([], rest) := by
  obtain ⟨f, rfl⟩ : ∃ f, fuel = f + 1 := ⟨fuel - 1, by omega⟩
  rw [parseItemsF, skipWs_cons_not_ws _ _ (by decide)]
  obtain ⟨g, rfl⟩ : ∃ g, f = g + 1 := ⟨f - 1, by omega⟩
  rw [parseItems1, if_pos (by decide)]

theorem items1_step (d : LispData) (r : List LispObj) (hwfd : wfData d = true)
    (hd : ∀ fuel rest, needData d ≤ fuel → delimBoundary rest = true →
        parseF fuel (printData d ++ rest) = some (.obj d false, rest))
    (hr : ∀ fuel rest, needList r ≤ fuel →
        parseItemsF fuel (printItemsTail r ++ (rparenC :: rest)) = some (r, rest)) :
    ∀ fuel rest, needData d + needList r + 1 ≤ fuel →
      parseItems1 fuel (printData d ++ (printItemsTail r ++ (rparenC :: rest)))
        = some (.obj d false :: r, rest) := by
  intro fuel rest hneed
  obtain ⟨g, rfl⟩ : ∃ g, fuel = g + 1 := ⟨fuel - 1, by omega⟩
  have hd1 : needData d ≤ g := by have := needList_ge r; omega
  have hr1 : needList r ≤ g := by have := needData_ge d; omega
  obtain ⟨c, cs, hp, hws, h41⟩ := printData_head d hwfd
  rw [hp, List.cons_append, parseItems1, if_neg h41]
  have hcat : c :: (cs ++ (printItemsTail r ++ (rparenC :: rest)))
      = printData d ++ (printItemsTail r ++ (rparenC :: rest)) := by
    rw [hp, List.cons_append]
  rw [hcat]
  have hA := hd g (printItemsTail r ++ (rparenC :: rest)) hd1 (boundary_tail r rest)
  have hB := hr g rest hr1
  simp only [hA, hB]

theorem itemsF_cons (d : LispData) (r : List LispObj) (hwfd : wfData d = true)
    (hstep : ∀ fuel rest, needData d + needList r + 1 ≤ fuel →
        parseItems1 fuel (printData d ++ (printItemsTail r ++ (rparenC :: rest)))
          = some (.obj d false :: r, rest)) :
    ∀ fuel rest, needList (LispObj.obj d false :: r) ≤ fuel →
      parseItemsF fuel (printItems (LispObj.obj d false :: r) ++ (rparenC :: rest))
        = some (.obj d false :: r, rest) := by
  intro fuel rest hneed
  obtain ⟨f, rfl⟩ : ∃ f, fuel = f + 1 :=
    ⟨fuel - 1, by have := needList_ge (LispObj.obj d false :: r); omega⟩
  rw [parseItemsF, printItems, printObj]
  have harr : (printData d ++ printItemsTail r) ++ (rparenC :: rest)
      = printData d ++ (printItemsTail r ++ (rparenC :: rest)) := by
    rw [List.append_assoc]
  rw [harr]
  obtain ⟨c, cs, hp, hws, _⟩ := printData_head d hwfd
  rw [hp, List.cons_append, skipWs_cons_not_ws c _ hws, ← List.cons_append, ← hp]
  exact hstep f rest (by simp only [needList] at hneed; omega)

theorem tailF_cons (d : LispData) (r : List LispObj) (hwfd : wfData d = true)
    (hstep : ∀ fuel rest, needData d + needList r + 1 ≤ fuel →
        parseItems1 fuel (printData d ++ (printItemsTail r ++ (rparenC :: rest)))
          = some (.obj d false :: r, rest)) :
    ∀ fuel rest, needList (LispObj.obj d false :: r) ≤ fuel →
      parseItemsF fuel (printItemsTail (LispObj.obj d false :: r) ++ (rparenC :: rest))
        = some (.obj d false :: r, rest) := by
  intro fuel rest hneed
  obtain ⟨f, rfl⟩ : ∃ f, fuel = f + 1 :=
    ⟨fuel - 1, by have := needList_ge (LispObj.obj d false :: r); omega⟩
  rw [parseItemsF, printItemsTail, printObj, List.cons_append,
    skipWs_cons_ws spaceC _ (by decide)]
  have harr : (printData d ++ printItemsTail r) ++ (rparenC :: rest)
      = printData d ++ (printItemsTail r ++ (rparenC :: rest)) := by
    rw [List.append_assoc]
  rw [harr]
  obtain ⟨c, cs, hp, hws, _⟩ := printData_head d hwfd
  rw [hp, List.cons_append, skipWs_cons_not_ws c _ hws, ← List.cons_append, ← hp]
  exact hstep f rest (by simp only [needList] at hneed; omega)

mutual

theorem RT_data : ∀ d : LispData, wfData d = true →
    (∀ fuel rest, needData d ≤ fuel + 1 → delimBoundary rest = true →
        parseForm fuel (printData d ++ rest) = some (.obj d false, rest)) ∧
    (∀ fuel rest, needData d ≤ fuel → delimBoundary rest = true →
        parseF fuel (printData d ++ rest) = some (.obj d false, rest))
  | .integer n, hwf => ⟨RT_form_integer n, parseF_lift _ hwf (RT_form_integer n)⟩
  | .str s, hwf => ⟨RT_form_str s hwf, parseF_lift _ hwf (RT_form_str s hwf)⟩
  | .symbol s, hwf => ⟨RT_form_symbol s hwf, parseF_lift _ hwf (RT_form_symbol s hwf)⟩
  | .list es, hwf =>
    have hitems := RT_items es (by simpa only [wfData] using hwf)
    have hform := RT_form_list es hitems
    ⟨hform, parseF_lift _ hwf hform⟩
  | .function ps fs, hwf => absurd hwf (by simp [wfData])
  | .builtin sp k i, hwf => absurd hwf (by simp [wfData])
  | .tVal, hwf => absurd hwf (by simp [wfData])

theorem RT_items : ∀ es : List LispObj, wfItems es = true →
    ∀ fuel rest, needList es ≤ fuel →
      parseItemsF fuel (printItems es ++ (rparenC :: rest)) = some (es, rest)
  | [], _ => by
    intro fuel rest hneed
    rw [printItems, List.nil_append]
    exact RT_nil_items fuel rest (by simpa only [needList] using hneed)
  | .obj d q :: r, hwf => by
    obtain ⟨hq, hwfd⟩ := wfObj_parts d q (wfItems_parts _ _ hwf).1
    have hwfr := (wfItems_parts _ _ hwf).2
    subst hq
    exact itemsF_cons d r hwfd
      (items1_step d r hwfd (RT_data d hwfd).2 (RT_tail r hwfr))

theorem RT_tail : ∀ r : List LispObj, wfItems r = true →
    ∀ fuel rest, needList r ≤ fuel →
      parseItemsF fuel (printItemsTail r ++ (rparenC :: rest)) = some (r, rest)
  | [], _ => by
    intro fuel rest hneed
    rw [printItemsTail, List.nil_append]
    exact RT_nil_items fuel rest (by simpa only [needList] using hneed)
  | .obj d q :: r', hwf => by
    obtain ⟨hq, hwfd⟩ := wfObj_parts d q (wfItems_parts _ _ hwf).1
    have hwfr := (wfItems_parts _ _ hwf).2
    subst hq
    exact tailF_cons d r' hwfd
      (items1_step d r' hwfd (RT_data d hwfd).2 (RT_tail r' hwfr))

end

mutual

theorem needData_le : ∀ d : LispData, needData d ≤ 4 * (printData d).length + 2
  | .integer n => by simp only [needData]; omega
  | .str s => by simp only [needData]; omega
  | .symbol s => by simp only [needData]; omega
  | .list es => by
    have h := needList_le_items es
    simp only [needData, printData, List.length_cons, List.length_append]
    omega
  | .function ps fs => by simp only [needData]; omega
  | .builtin sp k i => by simp only [needData]; omega
  | .tVal => by simp only [needData]; omega

theorem needList_le_tail : ∀ r : List LispObj, needList r ≤ 4 * (printItemsTail r).length + 4
  | [] => by simp [needList, printItemsTail]
  | .obj d q :: r => by
    have h1 := needData_le d
    have h2 := needList_le_tail r
    cases q <;>
      (simp only [needList, printItemsTail, printObj, List.length_append,
        List.length_cons]; omega)

theorem needList_le_items : ∀ es : List LispObj, needList es ≤ 4 * (printItems es).length + 8
  | [] => by simp [needList, printItems]
  | .obj d q :: r => by
    have h1 := needData_le d
    have h2 := needList_le_tail r
    cases q <;>
      (simp only [needList, printItems, printObj, List.length_append,
        List.length_cons]; omega)

end

/-- Claim C6: for every well-formed literal form f (an integer, string,
symbol, or list built from such: the Value it reads to satisfies `wfObj`),
printing the Value obtained by reading f produces a form that reads back to
an equal Value, consuming the whole rendering. -/
theorem spec_c6_read_print_roundtrip :
    ∀ (f : List Char) (v : LispObj) (rest : List Char),
      c_read f = some (v, rest) → wfObj v = true →
        c_read (c_print v) = some (v, []) := by
  intro f v rest _hread hwf
  obtain ⟨d, q⟩ := v
  obtain ⟨hq, hwfd⟩ := wfObj_parts d q hwf
  subst hq
  rw [c_print, c_read, printObj]
  have h := (RT_data d hwfd).2 (4 * (printData d).length + 2) []
    (by have := needData_le d; omega) rfl
  rw [List.append_nil] at h
  exact h

/-- Witness for C6: the concrete form `(1 x)` reads to a well-formed literal
Value whose printed rendering reads back to the same Value. -/
theorem spec_c6_read_print_roundtrip_witness :
    c_read ['(', '1', ' ', 'x', ')']
        = some (.obj (.list [.obj (.integer 1) false,
            .obj (.symbol (String.mk ['x'])) false]) false, []) ∧
    wfObj (.obj (.list [.obj (.integer 1) false,
        .obj (.symbol (String.mk ['x'])) false]) false) = true ∧
    c_read (c_print (.obj (.list [.obj (.integer 1) false,
        .obj (.symbol (String.mk ['x'])) false]) false))
        = some (.obj (.list [.obj (.integer 1) false,
            .obj (.symbol (String.mk ['x'])) false]) false, []) := by
  refine ⟨rfl, ?_, ?_⟩
  · rfl
  · exact spec_c6_read_print_roundtrip ['(', '1', ' ', 'x', ')'] _ [] rfl (by rfl)
